import Mathlib

/-!
# Verification of the GTSAM core: discrete Bayes net and Levenberg-Marquardt loop

Shallow embedding of `DiscreteBayesNet.cpp` and `LevenbergMarquardtOptimizer.cpp`.
Real-valued quantities (`double` in C++) are modelled as rationals `ℚ`; external
collaborators (linearization, damped solving, retraction, conditional tables) are
modelled as parameters of the embedding, mirroring the call structure of the source.
-/

/-! ## Discrete Bayes net (DiscreteBayesNet.cpp)

A discrete assignment (`DiscreteFactor::Values`, a map from variable index to
value) is modelled as an association list; the most recent binding shadows
older ones, matching `operator[]` assignment into the map. -/

/-- Discrete assignment: variable index to chosen value. -/
def DAssignment : Type := List (ℕ × ℕ)

/-- Lookup a variable's value in an assignment (default 0 when absent;
the operations below only consult variables that are present). -/
def lookupD (values : DAssignment) (k : ℕ) : ℕ :=
  (List.lookup k values).getD 0

/-- A discrete conditional P(var | parents): its own variable, the number of
values of that variable, the parent variables, and the probability table.
The table `p v values` gives the probability that `var = v` given the parent
values read from `values` — the external `DecisionTreeFactor` contract. -/
structure DiscreteConditional where
  var : ℕ
  card : ℕ
  parents : List ℕ
  p : ℕ → DAssignment → ℚ

/-- `(*conditional)(values)`: the table value of the conditional under a full
assignment — the probability of the assignment's value for `var`, given the
parent values inside `values`. -/
def condEval (c : DiscreteConditional) (values : DAssignment) : ℚ :=
  c.p (lookupD values c.var) values

/-- A DiscreteBayesNet: the ordered sequence of stored conditionals
(storage order = elimination order). -/
def DiscreteBayesNet : Type := List DiscreteConditional

/-- `DiscreteBayesNet::evaluate`: evaluate all conditionals, in storage order,
and multiply (`result *= (*conditional)(values)` starting from `1.0`). -/
def evaluate (bn : DiscreteBayesNet) (values : DAssignment) : ℚ :=
  bn.foldl (fun r c => r * condEval c values) 1

/-- Modelled from the spec: `DiscreteConditional::solveInPlace` is not under
`src/` (only its caller `DiscreteBayesNet::optimize` is). Per the spec it
chooses "the value of its own variable that maximizes the conditional
probability given the already-assigned parent values" and stores it into the
assignment. The maximizing value over `0, …, card−1`. -/
def argmaxVal (c : DiscreteConditional) (values : DAssignment) : ℕ :=
  ((List.range c.card).argmax (fun v => c.p v values)).getD 0

/-- Modelled from the spec: `solveInPlace` writes the maximizing value of the
conditional's own variable into the assignment. -/
def solveInPlace (c : DiscreteConditional) (values : DAssignment) : DAssignment :=
  (c.var, argmaxVal c values) :: values

/-- `DiscreteBayesNet::optimize`: solve each node in turn in topological sort
order, parents first — i.e. traverse the stored conditionals in reverse
storage order (`BOOST_REVERSE_FOREACH`), starting from the empty assignment. -/
def optimize (bn : DiscreteBayesNet) : DAssignment :=
  bn.reverse.foldl (fun values c => solveInPlace c values) []

/-- The spec's precondition on `add`: conditionals are supplied in valid
elimination order — each conditional's parents are the variables of
conditionals stored strictly later (hence assigned earlier in the reverse
traversal). -/
def validElimOrder (bn : DiscreteBayesNet) : Prop :=
  ∀ i < bn.length, ∀ par ∈ (bn.getD i ⟨0, 0, [], fun _ _ => 0⟩).parents,
    ∃ j < bn.length, i < j ∧ (bn.getD j ⟨0, 0, [], fun _ _ => 0⟩).var = par

instance : DecidablePred validElimOrder := fun bn => by
  unfold validElimOrder; infer_instance

/-- Concrete two-node chain A→B used to study `optimize`:
prior on variable 0 and conditional of variable 1 given variable 0,
stored in elimination order `[P(1|0), P(0)]`. -/
def condA : DiscreteConditional :=
  { var := 0, card := 2, parents := []
    p := fun v _ => if v = 0 then 3/5 else 2/5 }

/-- P(1 | 0): if variable 0 is 0 the two values are equally likely, otherwise
value 0 has probability 9/10. -/
def condB : DiscreteConditional :=
  { var := 1, card := 2, parents := [0]
    p := fun v values =>
      if lookupD values 0 = 0 then 1/2 else if v = 0 then 9/10 else 1/10 }

/-- The chain stored in elimination order (reverse traversal visits `condA`,
then `condB`: parents first). -/
def chainModel : DiscreteBayesNet := [condB, condA]

/-! ## Levenberg-Marquardt loop (LevenbergMarquardtOptimizer.cpp)

`double` quantities are modelled as `ℚ`. The type parameters stand for the
external collaborators' data: `V` the nonlinear `Values` (estimate), `S` the
solved step (`VectorValues`), `F` a factor produced by linearization, `E` the
payload of a non-`NegativeMatrixException` solver failure. -/

/-- A factor of a Gaussian factor graph: either a factor coming from
linearization (opaque), or a damping prior `JacobianFactor(j, A, b, model)`
on variable `j` with matrix `A`, vector `b` and an isotropic noise model of
the given dimension. The C++ noise model `noiseModel::Isotropic::Sigma(dim,
sigma)` with `sigma = 1/sqrt(lambda)` is represented by its variance
`sigma² = 1/lambda`, which is rational where `sigma` itself is not. -/
inductive GaussianFactor (F : Type) where
  | base : F → GaussianFactor F
  | prior : ℕ → List (List ℚ) → List ℚ → ℕ → ℚ → GaussianFactor F
deriving DecidableEq

instance {F : Type} : Inhabited (GaussianFactor F) := ⟨.prior 0 [] [] 0 0⟩

/-- `eye(dim)`: identity matrix as a list of rows. -/
def eye (n : ℕ) : List (List ℚ) :=
  (List.range n).map fun i => (List.range n).map fun j => if i = j then 1 else 0

/-- `zero(dim)`: zero vector. -/
def zeroVec (n : ℕ) : List ℚ :=
  List.replicate n 0

/-- The variance (`sigma²`) of the damping prior's isotropic noise model:
`sigma = 1.0 / sqrt(lambda)`, so `sigma² = 1/lambda`. -/
def priorSigmaSq (lambda : ℚ) : ℚ := 1 / lambda

/-- The damping priors: "for each of the variables, add a prior" — one unary
`JacobianFactor(j, eye(dim), zero(dim), Isotropic::Sigma(dim, 1/sqrt λ))`
per variable `j`, where `dim = dimensions[j]`. -/
def dampedPriors {F : Type} (dims : List ℕ) (lambda : ℚ) : List (GaussianFactor F) :=
  (List.range dims.length).map fun j =>
    .prior j (eye (dims.getD j 0)) (zeroVec (dims.getD j 0)) (dims.getD j 0)
      (priorSigmaSq lambda)

/-- `GaussianFactorGraph dampedSystem(*linear)` followed by `push_back` of the
priors: a copy of the linear system extended with the damping priors; the
original `linear` is not touched. -/
def dampedSystem {F : Type} (linear : List (GaussianFactor F)) (dims : List ℕ)
    (lambda : ℚ) : List (GaussianFactor F) :=
  linear ++ dampedPriors dims lambda

/-- Result of one damped solve (`GaussianXSolver(...).optimize()`): a step, a
`NegativeMatrixException` (numerical indefiniteness), or any other failure. -/
inductive SolveOutcome (S E : Type) where
  | success : S → SolveOutcome S E
  | indefinite : SolveOutcome S E
  | fatal : E → SolveOutcome S E
deriving DecidableEq

/-- The ways `iterate` can fail: the two invalid-configuration
`runtime_error`s, or a rethrown solver failure. -/
inductive LMError (E : Type) where
  | configFactorization : LMError E
  | configElimination : LMError E
  | solverFatal : E → LMError E
deriving DecidableEq

/-- Observable collaborator calls made by `iterate`, in order: a
linearization of the graph at an estimate, and a solve of a linear system. -/
inductive LMEvent (V F : Type) where
  | linearized : V → LMEvent V F
  | solved : List (GaussianFactor F) → LMEvent V F
deriving DecidableEq

/-- `LevenbergMarquardtState`: estimate, its error, damping factor, and
iteration count. -/
structure LMState (V : Type) where
  values : V
  error : ℚ
  lambda : ℚ
  iterations : ℕ
deriving DecidableEq

/-- The parameters `iterate` reads. `factorization` selects LDL (code 0) or
QR (code 1); `elimination` selects MULTIFRONTAL (code 0) or SEQUENTIAL
(code 1); any other code is an invalid selector. -/
structure LMParams where
  factorization : ℕ
  elimination : ℕ
  lambdaFactor : ℚ
  lambdaUpperBound : ℚ
deriving DecidableEq

/-- The external collaborators of the loop: `graph_->linearize` at the fixed
ordering, `values.dims(ordering)`, the two solvers, `Values::retract`, and
`graph_->error`. -/
structure LMEnv (V S F E : Type) where
  linearize : V → List (GaussianFactor F)
  dims : V → List ℕ
  mfSolve : List (GaussianFactor F) → Bool → SolveOutcome S E
  seqSolve : List (GaussianFactor F) → Bool → SolveOutcome S E
  retract : V → S → V
  errorFn : V → ℚ

/-- Dispatch on the elimination selector: MULTIFRONTAL (0) uses
`GaussianMultifrontalSolver`, otherwise `GaussianSequentialSolver` (only
reached with selector 1; `tryLambda` guards invalid selectors). -/
def solveDispatch {V S F E : Type} (env : LMEnv V S F E) (elim : ℕ)
    (sys : List (GaussianFactor F)) (useQR : Bool) : SolveOutcome S E :=
  if elim = 0 then env.mfSolve sys useQR else env.seqSolve sys useQR

/-- `useQR` as computed by `iterate` for a valid factorization selector:
LDL (0) → false, QR (1) → true. -/
def lmUseQR (params : LMParams) : Bool :=
  params.factorization == 1

/-- The `while(true)` damping-trial loop of `iterate` (`try_lambda`), with
explicit fuel (the C++ loop is unbounded in trial count). Loop-carried state:
the current `lambda`; `next_values`/`next_error` stay equal to
`current.values`/`current.error` until an acceptance, exactly as in the
source, so the exits return them directly. Returns the final
`(next_values, next_error, lambda)` (or a propagated error, or `none` when
the fuel runs out) together with the log of solver calls. -/
def tryLambda {V S F E : Type} (env : LMEnv V S F E) (params : LMParams)
    (current : LMState V) (linear : List (GaussianFactor F)) (dims : List ℕ)
    (useQR : Bool) :
    ℕ → ℚ → Option (Except (LMError E) (V × ℚ × ℚ)) × List (LMEvent V F)
  | 0, _ => (none, [])
  | fuel + 1, lambda =>
    let damped := dampedSystem linear dims lambda
    if params.elimination = 0 ∨ params.elimination = 1 then
      match solveDispatch env params.elimination damped useQR with
      | .success delta =>
        let newValues := env.retract current.values delta
        let error := env.errorFn newValues
        if error ≤ current.error then
          (some (.ok (newValues, error, lambda / params.lambdaFactor)), [.solved damped])
        else if params.lambdaUpperBound ≤ lambda then
          (some (.ok (current.values, current.error, lambda)), [.solved damped])
        else
          let rest := tryLambda env params current linear dims useQR fuel
            (lambda * params.lambdaFactor)
          (rest.1, .solved damped :: rest.2)
      | .indefinite =>
        if params.lambdaUpperBound ≤ lambda then
          (some (.ok (current.values, current.error, lambda)), [.solved damped])
        else
          let rest := tryLambda env params current linear dims useQR fuel
            (lambda * params.lambdaFactor)
          (rest.1, .solved damped :: rest.2)
      | .fatal e => (some (.error (.solverFatal e)), [.solved damped])
    else
      (some (.error .configElimination), [])

/-- The body of `iterate` after the factorization selector has been resolved
to `useQR`: run the trial loop from `current.lambda` and package the result
into a freshly built state with `iterations = current.iterations + 1`. -/
def iterateBody {V S F E : Type} (env : LMEnv V S F E) (params : LMParams)
    (fuel : ℕ) (current : LMState V) (useQR : Bool) :
    Option (Except (LMError E) (LMState V)) × List (LMEvent V F) :=
  let linear := env.linearize current.values
  let dims := env.dims current.values
  let res := tryLambda env params current linear dims useQR fuel current.lambda
  (res.1.map (Except.map fun t =>
      { values := t.1, error := t.2.1, lambda := t.2.2
        iterations := current.iterations + 1 }),
   LMEvent.linearized current.values :: res.2)

/-- `LevenbergMarquardtOptimizer::iterate`: linearize the graph at the current
estimate, then resolve the factorization selector (LDL → no QR, QR → QR, any
other value → `runtime_error`), then run the damping-trial loop and build the
new state. The linearization happens before the selector check, as in the
source. -/
def iterate {V S F E : Type} (env : LMEnv V S F E) (params : LMParams)
    (fuel : ℕ) (current : LMState V) :
    Option (Except (LMError E) (LMState V)) × List (LMEvent V F) :=
  if params.factorization = 0 then
    iterateBody env params fuel current false
  else if params.factorization = 1 then
    iterateBody env params fuel current true
  else
    (some (.error .configFactorization), [LMEvent.linearized current.values])

/-- The shared-state chain a caller observes: states live in a list; `iterate`
reads the state at index `i` (`dynamic_cast` of the shared pointer) and, on
success, appends the freshly allocated new state (`boost::make_shared`),
leaving every existing state untouched. -/
def iterateChain {V S F E : Type} (env : LMEnv V S F E) (params : LMParams)
    (fuel : ℕ) (chain : List (LMState V)) (i : ℕ) :
    Option (Except (LMError E) (List (LMState V))) :=
  match chain[i]? with
  | none => none
  | some current =>
    match (iterate env params fuel current).1 with
    | none => none
    | some (.error e) => some (.error e)
    | some (.ok st) => some (.ok (chain ++ [st]))

/-- Reachability of a loop `lambda` from the initial `current.lambda` through
`k` rejected trials: each step is a trial at a `lambda` below the upper bound
that was rejected — the solver signalled indefiniteness, or it succeeded and
the candidate error was worse — after which `lambda` is multiplied by the
growth factor. -/
inductive LoopReaches {V S F E : Type} (env : LMEnv V S F E) (params : LMParams)
    (current : LMState V) (linear : List (GaussianFactor F)) (dims : List ℕ)
    (useQR : Bool) : ℕ → ℚ → Prop
  | base : LoopReaches env params current linear dims useQR 0 current.lambda
  | stepIndef {k : ℕ} {l : ℚ} :
      LoopReaches env params current linear dims useQR k l →
      l < params.lambdaUpperBound →
      solveDispatch env params.elimination (dampedSystem linear dims l) useQR
        = .indefinite →
      LoopReaches env params current linear dims useQR (k + 1) (l * params.lambdaFactor)
  | stepWorse {k : ℕ} {l : ℚ} {delta : S} :
      LoopReaches env params current linear dims useQR k l →
      l < params.lambdaUpperBound →
      solveDispatch env params.elimination (dampedSystem linear dims l) useQR
        = .success delta →
      current.error < env.errorFn (env.retract current.values delta) →
      LoopReaches env params current linear dims useQR (k + 1) (l * params.lambdaFactor)

/-! ## Concrete instances used to exercise the definitions -/

/-- An environment whose solver always succeeds with a no-move step and whose
error function is constantly 4. -/
def envAccept : LMEnv Unit Unit Unit Unit :=
  { linearize := fun _ => []
    dims := fun _ => []
    mfSolve := fun _ _ => .success ()
    seqSolve := fun _ _ => .success ()
    retract := fun _ _ => ()
    errorFn := fun _ => 4 }

/-- An environment whose solver signals indefiniteness exactly on the damped
system built with `lambda = 1`, and succeeds otherwise. -/
def envIndef1 : LMEnv Unit Unit Unit Unit :=
  { linearize := fun _ => []
    dims := fun _ => [1]
    mfSolve := fun sys _ =>
      if sys = dampedSystem ([] : List (GaussianFactor Unit)) [1] 1 then .indefinite
      else .success ()
    seqSolve := fun _ _ => .indefinite
    retract := fun _ _ => ()
    errorFn := fun _ => 4 }

/-- An environment whose solver always fails fatally. -/
def envFatal : LMEnv Unit Unit Unit Unit :=
  { linearize := fun _ => []
    dims := fun _ => []
    mfSolve := fun _ _ => .fatal ()
    seqSolve := fun _ _ => .fatal ()
    retract := fun _ _ => ()
    errorFn := fun _ => 4 }

/-- LDL factorization, multifrontal elimination, growth factor 2, λ bound 10. -/
def paramsLDL : LMParams :=
  { factorization := 0, elimination := 0, lambdaFactor := 2, lambdaUpperBound := 10 }

/-- An invalid factorization selector (code 5). -/
def paramsBadFact : LMParams :=
  { factorization := 5, elimination := 0, lambdaFactor := 2, lambdaUpperBound := 10 }

/-- A valid factorization selector with an invalid elimination selector. -/
def paramsBadElim : LMParams :=
  { factorization := 0, elimination := 7, lambdaFactor := 2, lambdaUpperBound := 10 }

/-- A starting state whose error matches `envAccept`'s error function. -/
def stateA : LMState Unit := { values := (), error := 4, lambda := 1, iterations := 0 }

/-- A starting state with error below `envAccept`'s candidate error and λ at
the upper bound of `paramsLDL`. -/
def stateLow : LMState Unit := { values := (), error := 2, lambda := 10, iterations := 7 }

/-- A valid configuration choosing the sequential solver. -/
def paramsSeq : LMParams :=
  { factorization := 0, elimination := 1, lambdaFactor := 2, lambdaUpperBound := 10 }

/-- Whether an event is a linearization call. -/
def isLinearizedEvent {V F : Type} : LMEvent V F → Bool
  | .linearized _ => true
  | .solved _ => false

/-! ## Theorems: discrete Bayes net -/

/-- Folding multiplication from an accumulator equals the accumulator times
the product of the mapped list. -/
theorem foldl_mul_eq_mul_prod (f : DiscreteConditional → ℚ) :
    ∀ (bn : List DiscreteConditional) (a : ℚ),
      bn.foldl (fun r c => r * f c) a = a * (bn.map f).prod
  | [], a => by simp
  | c :: rest, a => by
    simp only [List.foldl_cons, List.map_cons, List.prod_cons,
      foldl_mul_eq_mul_prod f rest (a * f c)]
    ring

/-- C6: for every already-built model and every complete assignment,
`evaluate` returns the product, over all stored conditionals in storage
order, of each conditional's table value under the assignment; for the empty
model and any assignment, `evaluate` returns 1. -/
theorem evaluate_eq_prod :
    (∀ values : DAssignment, evaluate [] values = 1) ∧
    (∀ (bn : DiscreteBayesNet) (values : DAssignment),
      evaluate bn values = (bn.map fun c => condEval c values).prod) := by
  refine ⟨fun values => rfl, fun bn values => ?_⟩
  simpa using foldl_mul_eq_mul_prod (fun c => condEval c values) bn 1

/-- The assigned value of `solveInPlace`'s conditional maximizes the
conditional probability over the variable's values, given the incoming
(parent) assignment. -/
theorem argmaxVal_le (c : DiscreteConditional) (values : DAssignment) (v : ℕ)
    (hv : v < c.card) : c.p v values ≤ c.p (argmaxVal c values) values := by
  unfold argmaxVal
  cases h : (List.range c.card).argmax (fun w => c.p w values) with
  | none =>
    rw [List.argmax_eq_none] at h
    exact absurd (List.mem_range.mpr hv) (by simp [h])
  | some m =>
    simpa using List.le_of_mem_argmax (List.mem_range.mpr hv) (Option.mem_def.mpr h)

unseal Rat.mul Rat.inv Rat.add Rat.sub in
/-- C7 counterexample: a two-node chain added in valid elimination order on
which the assignment produced by `optimize` is strictly less probable than
another complete assignment — the greedy parents-first per-node maximization
does not yield the most-probable joint assignment. -/
theorem optimize_not_most_probable :
    validElimOrder chainModel ∧
    evaluate chainModel (optimize chainModel) < evaluate chainModel [(0, 1), (1, 0)] :=
  ⟨by decide, by decide⟩

/-- C7 (amended): `optimize` traverses the stored conditionals in reverse
storage order (the head conditional is processed after all later-stored
ones), at each conditional assigning its own variable a value that maximizes
the conditional probability given the already-assigned values, and returns
the empty assignment on the empty model. -/
theorem optimize_greedy_reverse_order :
    optimize [] = ([] : DAssignment) ∧
    (∀ (c : DiscreteConditional) (rest : DiscreteBayesNet),
      optimize (c :: rest) = solveInPlace c (optimize rest)) ∧
    (∀ (c : DiscreteConditional) (values : DAssignment),
      List.lookup c.var (solveInPlace c values) = some (argmaxVal c values)) ∧
    (∀ (c : DiscreteConditional) (values : DAssignment) (v : ℕ), v < c.card →
      c.p v values ≤ c.p (argmaxVal c values) values) := by
  refine ⟨rfl, fun c rest => ?_, fun c values => ?_, argmaxVal_le⟩
  · show (c :: rest).reverse.foldl (fun values c => solveInPlace c values) []
      = solveInPlace c (optimize rest)
    rw [List.reverse_cons, List.foldl_append]
    rfl
  · show List.lookup c.var ((c.var, argmaxVal c values) :: values) = _
    simp [List.lookup]

unseal Rat.mul Rat.inv Rat.add Rat.sub in
/-- Witness for the amended C7 theorem on the concrete chain. -/
theorem optimize_greedy_reverse_order_witness :
    optimize [condB, condA] = solveInPlace condB (optimize [condA]) ∧
    condA.p 1 [] ≤ condA.p (argmaxVal condA []) [] :=
  ⟨optimize_greedy_reverse_order.2.1 condB [condA],
   optimize_greedy_reverse_order.2.2.2 condA [] 1 (by decide)⟩

/-! ## Theorems: Levenberg-Marquardt loop — unfolding lemmas -/

section LMLemmas

variable {V S F E : Type} (env : LMEnv V S F E) (params : LMParams)
variable (current : LMState V) (linear : List (GaussianFactor F))
variable (dims : List ℕ) (useQR : Bool)

/-- With no fuel the trial loop yields no result. -/
theorem tryLambda_fuel_zero (l : ℚ) :
    tryLambda env params current linear dims useQR 0 l = (none, []) := rfl

/-- A successful solve whose candidate error is not worse is accepted: the
loop ends with the candidate estimate and error and a shrunk λ. -/
theorem tryLambda_accept {delta : S} {fuel : ℕ} {l : ℚ}
    (hel : params.elimination = 0 ∨ params.elimination = 1)
    (hsol : solveDispatch env params.elimination (dampedSystem linear dims l) useQR
      = .success delta)
    (hacc : env.errorFn (env.retract current.values delta) ≤ current.error) :
    tryLambda env params current linear dims useQR (fuel + 1) l
      = (some (.ok (env.retract current.values delta,
          env.errorFn (env.retract current.values delta), l / params.lambdaFactor)),
         [.solved (dampedSystem linear dims l)]) := by
  simp only [tryLambda]
  rw [if_pos hel, hsol]
  simp [hacc]

/-- A successful solve with a worse candidate error while λ is at or above the
upper bound: the loop gives up, keeping the current estimate, error and λ. -/
theorem tryLambda_reject_bound {delta : S} {fuel : ℕ} {l : ℚ}
    (hel : params.elimination = 0 ∨ params.elimination = 1)
    (hsol : solveDispatch env params.elimination (dampedSystem linear dims l) useQR
      = .success delta)
    (hworse : current.error < env.errorFn (env.retract current.values delta))
    (hb : params.lambdaUpperBound ≤ l) :
    tryLambda env params current linear dims useQR (fuel + 1) l
      = (some (.ok (current.values, current.error, l)),
         [.solved (dampedSystem linear dims l)]) := by
  simp only [tryLambda]
  rw [if_pos hel, hsol]
  simp [not_le.mpr hworse, hb]

/-- A successful solve with a worse candidate error while λ is below the upper
bound: the trial is rejected and the loop retries with λ grown by the factor. -/
theorem tryLambda_reject_grow {delta : S} {fuel : ℕ} {l : ℚ}
    (hel : params.elimination = 0 ∨ params.elimination = 1)
    (hsol : solveDispatch env params.elimination (dampedSystem linear dims l) useQR
      = .success delta)
    (hworse : current.error < env.errorFn (env.retract current.values delta))
    (hlt : l < params.lambdaUpperBound) :
    tryLambda env params current linear dims useQR (fuel + 1) l
      = ((tryLambda env params current linear dims useQR fuel
            (l * params.lambdaFactor)).1,
         .solved (dampedSystem linear dims l)
           :: (tryLambda env params current linear dims useQR fuel
                (l * params.lambdaFactor)).2) := by
  simp only [tryLambda]
  rw [if_pos hel, hsol]
  simp [not_le.mpr hworse, not_le.mpr hlt]

/-- An indefiniteness signal while λ is at or above the upper bound: the loop
gives up, keeping the current estimate, error and λ. -/
theorem tryLambda_indef_bound {fuel : ℕ} {l : ℚ}
    (hel : params.elimination = 0 ∨ params.elimination = 1)
    (hsol : solveDispatch env params.elimination (dampedSystem linear dims l) useQR
      = .indefinite)
    (hb : params.lambdaUpperBound ≤ l) :
    tryLambda env params current linear dims useQR (fuel + 1) l
      = (some (.ok (current.values, current.error, l)),
         [.solved (dampedSystem linear dims l)]) := by
  simp only [tryLambda]
  rw [if_pos hel, hsol]
  simp [hb]

/-- An indefiniteness signal while λ is below the upper bound: the trial is
rejected and the loop retries with λ grown by the factor. -/
theorem tryLambda_indef_grow {fuel : ℕ} {l : ℚ}
    (hel : params.elimination = 0 ∨ params.elimination = 1)
    (hsol : solveDispatch env params.elimination (dampedSystem linear dims l) useQR
      = .indefinite)
    (hlt : l < params.lambdaUpperBound) :
    tryLambda env params current linear dims useQR (fuel + 1) l
      = ((tryLambda env params current linear dims useQR fuel
            (l * params.lambdaFactor)).1,
         .solved (dampedSystem linear dims l)
           :: (tryLambda env params current linear dims useQR fuel
                (l * params.lambdaFactor)).2) := by
  simp only [tryLambda]
  rw [if_pos hel, hsol]
  simp [not_le.mpr hlt]

/-- Any other solver failure ends the loop with that failure. -/
theorem tryLambda_fatal {e : E} {fuel : ℕ} {l : ℚ}
    (hel : params.elimination = 0 ∨ params.elimination = 1)
    (hsol : solveDispatch env params.elimination (dampedSystem linear dims l) useQR
      = .fatal e) :
    tryLambda env params current linear dims useQR (fuel + 1) l
      = (some (.error (.solverFatal e)), [.solved (dampedSystem linear dims l)]) := by
  simp only [tryLambda]
  rw [if_pos hel, hsol]

/-- An invalid elimination selector fails the first trial before any solver
call. -/
theorem tryLambda_invalid_elim {fuel : ℕ} {l : ℚ}
    (h0 : params.elimination ≠ 0) (h1 : params.elimination ≠ 1) :
    tryLambda env params current linear dims useQR (fuel + 1) l
      = (some (.error .configElimination), []) := by
  simp only [tryLambda]
  rw [if_neg (by simp [h0, h1])]

end LMLemmas

section LMInduction

variable {V S F E : Type} (env : LMEnv V S F E) (params : LMParams)
variable (current : LMState V) (linear : List (GaussianFactor F))
variable (dims : List ℕ) (useQR : Bool)

/-- Whenever the trial loop returns a result, its error component is at most
the current error: an acceptance requires `error ≤ current.error` and every
give-up path returns `current.error` itself. -/
theorem tryLambda_error_le (fuel : ℕ) :
    ∀ (l : ℚ) (t : V × ℚ × ℚ),
      (tryLambda env params current linear dims useQR fuel l).1
        = some (.ok t) → t.2.1 ≤ current.error := by
  induction fuel with
  | zero => intro l t h; simp [tryLambda] at h
  | succ fuel ih =>
    intro l t h
    by_cases hel : params.elimination = 0 ∨ params.elimination = 1
    · cases hsol : solveDispatch env params.elimination (dampedSystem linear dims l)
        useQR with
      | success delta =>
        by_cases hacc :
            env.errorFn (env.retract current.values delta) ≤ current.error
        · rw [tryLambda_accept env params current linear dims useQR hel hsol hacc]
            at h
          simp at h
          subst h
          exact hacc
        · have hworse := not_le.mp hacc
          by_cases hb : params.lambdaUpperBound ≤ l
          · rw [tryLambda_reject_bound env params current linear dims useQR hel
              hsol hworse hb] at h
            simp at h
            subst h
            exact le_rfl
          · rw [tryLambda_reject_grow env params current linear dims useQR hel
              hsol hworse (not_le.mp hb)] at h
            exact ih (l * params.lambdaFactor) t h
      | indefinite =>
        by_cases hb : params.lambdaUpperBound ≤ l
        · rw [tryLambda_indef_bound env params current linear dims useQR hel hsol hb]
            at h
          simp at h
          subst h
          exact le_rfl
        · rw [tryLambda_indef_grow env params current linear dims useQR hel hsol
            (not_le.mp hb)] at h
          exact ih (l * params.lambdaFactor) t h
      | fatal e =>
        rw [tryLambda_fatal env params current linear dims useQR hel hsol] at h
        simp at h
    · rw [tryLambda_invalid_elim env params current linear dims useQR
        (fun h0 => hel (Or.inl h0)) (fun h1 => hel (Or.inr h1))] at h
      simp at h

end LMInduction

section LMInduction2

variable {V S F E : Type} (env : LMEnv V S F E) (params : LMParams)
variable (current : LMState V) (linear : List (GaussianFactor F))
variable (dims : List ℕ) (useQR : Bool)

/-- The trial loop never linearizes: no `linearized` event appears in its log. -/
theorem tryLambda_no_linearized (fuel : ℕ) :
    ∀ (l : ℚ) (v : V),
      LMEvent.linearized v ∉ (tryLambda env params current linear dims useQR fuel l).2 := by
  induction fuel with
  | zero => intro l v; simp [tryLambda]
  | succ fuel ih =>
    intro l v
    by_cases hel : params.elimination = 0 ∨ params.elimination = 1
    · cases hsol : solveDispatch env params.elimination (dampedSystem linear dims l)
        useQR with
      | success delta =>
        by_cases hacc :
            env.errorFn (env.retract current.values delta) ≤ current.error
        · rw [tryLambda_accept env params current linear dims useQR hel hsol hacc]
          simp
        · have hworse := not_le.mp hacc
          by_cases hb : params.lambdaUpperBound ≤ l
          · rw [tryLambda_reject_bound env params current linear dims useQR hel
              hsol hworse hb]
            simp
          · rw [tryLambda_reject_grow env params current linear dims useQR hel
              hsol hworse (not_le.mp hb)]
            simp [ih (l * params.lambdaFactor) v]
      | indefinite =>
        by_cases hb : params.lambdaUpperBound ≤ l
        · rw [tryLambda_indef_bound env params current linear dims useQR hel hsol hb]
          simp
        · rw [tryLambda_indef_grow env params current linear dims useQR hel hsol
            (not_le.mp hb)]
          simp [ih (l * params.lambdaFactor) v]
      | fatal e =>
        rw [tryLambda_fatal env params current linear dims useQR hel hsol]
        simp
    · rw [tryLambda_invalid_elim env params current linear dims useQR
        (fun h0 => hel (Or.inl h0)) (fun h1 => hel (Or.inr h1))]
      simp

/-- Every system the trial loop hands to a solver is the damped system built
from the fixed linear system, the fixed dimensions, and some λ. -/
theorem tryLambda_solved_damped (fuel : ℕ) :
    ∀ (l : ℚ) (sys : List (GaussianFactor F)),
      LMEvent.solved sys ∈ (tryLambda env params current linear dims useQR fuel l).2 →
      ∃ l2, sys = dampedSystem linear dims l2 := by
  induction fuel with
  | zero => intro l sys h; simp [tryLambda] at h
  | succ fuel ih =>
    intro l sys h
    by_cases hel : params.elimination = 0 ∨ params.elimination = 1
    · cases hsol : solveDispatch env params.elimination (dampedSystem linear dims l)
        useQR with
      | success delta =>
        by_cases hacc :
            env.errorFn (env.retract current.values delta) ≤ current.error
        · rw [tryLambda_accept env params current linear dims useQR hel hsol hacc]
            at h
          simp at h
          exact ⟨l, h⟩
        · have hworse := not_le.mp hacc
          by_cases hb : params.lambdaUpperBound ≤ l
          · rw [tryLambda_reject_bound env params current linear dims useQR hel
              hsol hworse hb] at h
            simp at h
            exact ⟨l, h⟩
          · rw [tryLambda_reject_grow env params current linear dims useQR hel
              hsol hworse (not_le.mp hb)] at h
            rcases List.mem_cons.mp h with heq | hmem
            · exact ⟨l, by simpa using heq⟩
            · exact ih (l * params.lambdaFactor) sys hmem
      | indefinite =>
        by_cases hb : params.lambdaUpperBound ≤ l
        · rw [tryLambda_indef_bound env params current linear dims useQR hel hsol hb]
            at h
          simp at h
          exact ⟨l, h⟩
        · rw [tryLambda_indef_grow env params current linear dims useQR hel hsol
            (not_le.mp hb)] at h
          rcases List.mem_cons.mp h with heq | hmem
          · exact ⟨l, by simpa using heq⟩
          · exact ih (l * params.lambdaFactor) sys hmem
      | fatal e =>
        rw [tryLambda_fatal env params current linear dims useQR hel hsol] at h
        simp at h
        exact ⟨l, h⟩
    · rw [tryLambda_invalid_elim env params current linear dims useQR
        (fun h0 => hel (Or.inl h0)) (fun h1 => hel (Or.inr h1))] at h
      simp at h

/-- If the solver dispatch never fails fatally, the only error the trial loop
can produce is the invalid-elimination configuration error. -/
theorem tryLambda_error_configElim (fuel : ℕ)
    (hnf : ∀ (sys : List (GaussianFactor F)) (e : E),
      solveDispatch env params.elimination sys useQR ≠ .fatal e) :
    ∀ (l : ℚ) (err : LMError E),
      (tryLambda env params current linear dims useQR fuel l).1
        = some (.error err) → err = .configElimination := by
  induction fuel with
  | zero => intro l err h; simp [tryLambda] at h
  | succ fuel ih =>
    intro l err h
    by_cases hel : params.elimination = 0 ∨ params.elimination = 1
    · cases hsol : solveDispatch env params.elimination (dampedSystem linear dims l)
        useQR with
      | success delta =>
        by_cases hacc :
            env.errorFn (env.retract current.values delta) ≤ current.error
        · rw [tryLambda_accept env params current linear dims useQR hel hsol hacc]
            at h
          simp at h
        · have hworse := not_le.mp hacc
          by_cases hb : params.lambdaUpperBound ≤ l
          · rw [tryLambda_reject_bound env params current linear dims useQR hel
              hsol hworse hb] at h
            simp at h
          · rw [tryLambda_reject_grow env params current linear dims useQR hel
              hsol hworse (not_le.mp hb)] at h
            exact ih (l * params.lambdaFactor) err h
      | indefinite =>
        by_cases hb : params.lambdaUpperBound ≤ l
        · rw [tryLambda_indef_bound env params current linear dims useQR hel hsol hb]
            at h
          simp at h
        · rw [tryLambda_indef_grow env params current linear dims useQR hel hsol
            (not_le.mp hb)] at h
          exact ih (l * params.lambdaFactor) err h
      | fatal e => exact absurd hsol (hnf _ e)
    · rw [tryLambda_invalid_elim env params current linear dims useQR
        (fun h0 => hel (Or.inl h0)) (fun h1 => hel (Or.inr h1))] at h
      simp at h
      exact h.symm

/-- Running the loop from the initial λ for `k + fuel` trials coincides, on the
result component, with running it from any λ the loop reaches after `k`
rejected trials with the remaining fuel. -/
theorem tryLambda_of_reaches
    (hel : params.elimination = 0 ∨ params.elimination = 1) {k : ℕ} {l : ℚ}
    (hr : LoopReaches env params current linear dims useQR k l) :
    ∀ fuel : ℕ,
      (tryLambda env params current linear dims useQR (k + fuel) current.lambda).1
        = (tryLambda env params current linear dims useQR fuel l).1 := by
  induction hr with
  | base => intro fuel; rw [Nat.zero_add]
  | @stepIndef k l hr hlt hsol ih =>
    intro fuel
    have h1 := ih (fuel + 1)
    rw [← Nat.add_assoc] at h1
    rw [Nat.add_right_comm, h1,
      tryLambda_indef_grow env params current linear dims useQR hel hsol hlt]
  | @stepWorse k l delta hr hlt hsol hworse ih =>
    intro fuel
    have h1 := ih (fuel + 1)
    rw [← Nat.add_assoc] at h1
    rw [Nat.add_right_comm, h1,
      tryLambda_reject_grow env params current linear dims useQR hel hsol hworse hlt]

end LMInduction2

section LMBridge

variable {V S F E : Type} (env : LMEnv V S F E) (params : LMParams)
variable (current : LMState V)

/-- With a valid factorization selector, `iterate` is its body at the
corresponding `useQR` flag (LDL → false, QR → true). -/
theorem iterate_valid_fact (fuel : ℕ)
    (hfa : params.factorization = 0 ∨ params.factorization = 1) :
    iterate env params fuel current
      = iterateBody env params fuel current (lmUseQR params) := by
  rcases hfa with h | h
  · simp [iterate, lmUseQR, h]
  · simp [iterate, lmUseQR, h]

/-- An ok result of the trial loop becomes the freshly built next state. -/
theorem iterateBody_ok_of (fuel : ℕ) (useQR : Bool) (t : V × ℚ × ℚ)
    (hres : (tryLambda env params current (env.linearize current.values)
        (env.dims current.values) useQR fuel current.lambda).1 = some (.ok t)) :
    (iterateBody env params fuel current useQR).1
      = some (.ok { values := t.1, error := t.2.1, lambda := t.2.2
                    iterations := current.iterations + 1 }) := by
  simp [iterateBody, hres, Except.map]

/-- An error of the trial loop is the error of the whole call. -/
theorem iterateBody_error_of (fuel : ℕ) (useQR : Bool) (err : LMError E)
    (hres : (tryLambda env params current (env.linearize current.values)
        (env.dims current.values) useQR fuel current.lambda).1 = some (.error err)) :
    (iterateBody env params fuel current useQR).1 = some (.error err) := by
  simp [iterateBody, hres, Except.map]

/-- An ok result of the whole call comes from an ok result of the trial loop. -/
theorem iterateBody_ok_elim (fuel : ℕ) (useQR : Bool) (st : LMState V)
    (h : (iterateBody env params fuel current useQR).1 = some (.ok st)) :
    ∃ t, (tryLambda env params current (env.linearize current.values)
        (env.dims current.values) useQR fuel current.lambda).1 = some (.ok t) ∧
      st = { values := t.1, error := t.2.1, lambda := t.2.2
             iterations := current.iterations + 1 } := by
  revert h
  simp only [iterateBody]
  cases hres : (tryLambda env params current (env.linearize current.values)
      (env.dims current.values) useQR fuel current.lambda).1 with
  | none => intro h; simp at h
  | some x =>
    cases x with
    | error e => intro h; simp [Except.map] at h
    | ok t =>
      intro h
      simp [Except.map] at h
      exact ⟨t, rfl, h.symm⟩

/-- An error of the whole call comes from an error of the trial loop. -/
theorem iterateBody_error_elim (fuel : ℕ) (useQR : Bool) (err : LMError E)
    (h : (iterateBody env params fuel current useQR).1 = some (.error err)) :
    (tryLambda env params current (env.linearize current.values)
        (env.dims current.values) useQR fuel current.lambda).1
      = some (.error err) := by
  revert h
  simp only [iterateBody]
  cases hres : (tryLambda env params current (env.linearize current.values)
      (env.dims current.values) useQR fuel current.lambda).1 with
  | none => intro h; simp at h
  | some x =>
    cases x with
    | error e =>
      intro h
      simp [Except.map] at h
      simp [← h]
    | ok t => intro h; simp [Except.map] at h

/-- The event log of the body: the single linearization, then the trial
loop's solver calls. -/
theorem iterateBody_events (fuel : ℕ) (useQR : Bool) :
    (iterateBody env params fuel current useQR).2
      = LMEvent.linearized current.values
        :: (tryLambda env params current (env.linearize current.values)
              (env.dims current.values) useQR fuel current.lambda).2 := rfl

end LMBridge

/-! ## Theorems: Levenberg-Marquardt claims -/

section LMClaims

variable {V S F E : Type}

/-- An invalid factorization selector makes `iterate` fail immediately after
linearization. -/
theorem iterate_invalid_fact (env : LMEnv V S F E) (params : LMParams)
    (current : LMState V) (fuel : ℕ)
    (h0 : params.factorization ≠ 0) (h1 : params.factorization ≠ 1) :
    iterate env params fuel current
      = (some (.error .configFactorization),
         [LMEvent.linearized current.values]) := by
  simp [iterate, h0, h1]

/-- A returned state always carries `current.iterations + 1`. -/
theorem iterate_ok_iterations (env : LMEnv V S F E) (params : LMParams)
    (current st : LMState V) (fuel : ℕ)
    (h : (iterate env params fuel current).1 = some (.ok st)) :
    st.iterations = current.iterations + 1 := by
  by_cases hfa : params.factorization = 0 ∨ params.factorization = 1
  · rw [iterate_valid_fact env params current fuel hfa] at h
    obtain ⟨t, _, hst⟩ :=
      iterateBody_ok_elim env params current fuel (lmUseQR params) st h
    rw [hst]
  · rw [iterate_invalid_fact env params current fuel
      (fun h0 => hfa (Or.inl h0)) (fun h1 => hfa (Or.inr h1))] at h
    simp at h

/-- C1: for every call to `iterate` that returns a state, the error of the
returned state is at most the error of the input state — a candidate step is
accepted only when its error is ≤ the current error, and every rejection or
give-up path keeps the current error unchanged. -/
theorem lm_iterate_error_nonincreasing (env : LMEnv V S F E) (params : LMParams)
    (fuel : ℕ) (current st : LMState V)
    (h : (iterate env params fuel current).1 = some (.ok st)) :
    st.error ≤ current.error := by
  by_cases hfa : params.factorization = 0 ∨ params.factorization = 1
  · rw [iterate_valid_fact env params current fuel hfa] at h
    obtain ⟨t, hres, hst⟩ :=
      iterateBody_ok_elim env params current fuel (lmUseQR params) st h
    rw [hst]
    exact tryLambda_error_le env params current (env.linearize current.values)
      (env.dims current.values) (lmUseQR params) fuel current.lambda t hres
  · rw [iterate_invalid_fact env params current fuel
      (fun h0 => hfa (Or.inl h0)) (fun h1 => hfa (Or.inr h1))] at h
    simp at h

end LMClaims

unseal Rat.mul Rat.inv Rat.add Rat.sub in
/-- Witness for C1 at a concrete accepted first trial. -/
theorem lm_iterate_error_nonincreasing_witness :
    ({ values := (), error := 4, lambda := 1/2, iterations := 1 } : LMState Unit).error
      ≤ stateA.error :=
  lm_iterate_error_nonincreasing envAccept paramsLDL 1 stateA
    { values := (), error := 4, lambda := 1/2, iterations := 1 } (by rfl)

/-- C2 counterexample: with an invalid factorization selector `iterate` does
raise the fatal configuration error, but the linearization of the graph has
already occurred by then (the `linearized` event is in the log), so the error
is not raised before any linearization. -/
theorem lm_config_error_not_before_linearize :
    (iterate envAccept paramsBadFact 1 stateA).1
      = some (.error .configFactorization) ∧
    (iterate envAccept paramsBadFact 1 stateA).2
      = [LMEvent.linearized stateA.values] :=
  ⟨rfl, rfl⟩

/-- C2 (amended): an invalid factorization selector or an invalid
elimination-strategy selector makes `iterate` raise a fatal configuration
error before any solve attempt (the log holds no `solved` event) — but after
the linearization, which precedes both selector checks. -/
theorem lm_config_error_before_solve (env : LMEnv V S F E) (params : LMParams)
    (fuel : ℕ) (current : LMState V) :
    (params.factorization ≠ 0 → params.factorization ≠ 1 →
      (iterate env params fuel current).1 = some (.error .configFactorization) ∧
      (iterate env params fuel current).2 = [LMEvent.linearized current.values]) ∧
    (params.factorization = 0 ∨ params.factorization = 1 →
      params.elimination ≠ 0 → params.elimination ≠ 1 → 0 < fuel →
      (iterate env params fuel current).1 = some (.error .configElimination) ∧
      (iterate env params fuel current).2 = [LMEvent.linearized current.values]) := by
  constructor
  · intro h0 h1
    rw [iterate_invalid_fact env params current fuel h0 h1]
    exact ⟨rfl, rfl⟩
  · intro hfa h0 h1 hfuel
    rw [iterate_valid_fact env params current fuel hfa]
    obtain ⟨f2, rfl⟩ : ∃ f2, fuel = f2 + 1 := ⟨fuel - 1, by omega⟩
    constructor
    · apply iterateBody_error_of
      rw [tryLambda_invalid_elim env params current (env.linearize current.values)
        (env.dims current.values) (lmUseQR params) h0 h1]
    · rw [iterateBody_events, tryLambda_invalid_elim env params current
        (env.linearize current.values) (env.dims current.values) (lmUseQR params)
        h0 h1]

/-- Witness for the amended C2 at concrete invalid selectors. -/
theorem lm_config_error_before_solve_witness :
    ((iterate envAccept paramsBadFact 1 stateA).1
        = some (.error .configFactorization) ∧
      (iterate envAccept paramsBadFact 1 stateA).2
        = [LMEvent.linearized stateA.values]) ∧
    ((iterate envAccept paramsBadElim 1 stateA).1
        = some (.error .configElimination) ∧
      (iterate envAccept paramsBadElim 1 stateA).2
        = [LMEvent.linearized stateA.values]) :=
  ⟨(lm_config_error_before_solve envAccept paramsBadFact 1 stateA).1
      (by decide) (by decide),
   (lm_config_error_before_solve envAccept paramsBadElim 1 stateA).2
      (Or.inl rfl) (by decide) (by decide) (by decide)⟩

/-- C3: whenever the trial loop, having reached λ = `l` from the input state's
λ through rejected trials, rejects a successfully solved trial because the
candidate error is worse while `l` is at or above the configured upper bound,
`iterate` abandons the inner loop and returns a state with the input estimate
and error and the input iteration count plus one. -/
theorem lm_reject_at_bound_frame (env : LMEnv V S F E) (params : LMParams)
    (current : LMState V) (fuel k : ℕ) (l : ℚ) (delta : S)
    (hfa : params.factorization = 0 ∨ params.factorization = 1)
    (hel : params.elimination = 0 ∨ params.elimination = 1)
    (hreach : LoopReaches env params current (env.linearize current.values)
      (env.dims current.values) (lmUseQR params) k l)
    (hb : params.lambdaUpperBound ≤ l)
    (hsol : solveDispatch env params.elimination
      (dampedSystem (env.linearize current.values) (env.dims current.values) l)
      (lmUseQR params) = .success delta)
    (hworse : current.error < env.errorFn (env.retract current.values delta))
    (hfuel : k < fuel) :
    (iterate env params fuel current).1
      = some (.ok { values := current.values, error := current.error, lambda := l
                    iterations := current.iterations + 1 }) := by
  rw [iterate_valid_fact env params current fuel hfa]
  have hshift := tryLambda_of_reaches env params current (env.linearize current.values)
    (env.dims current.values) (lmUseQR params) hel hreach (fuel - k)
  have hfk : k + (fuel - k) = fuel := by omega
  rw [hfk] at hshift
  obtain ⟨f2, hf2⟩ : ∃ f2, fuel - k = f2 + 1 := ⟨fuel - k - 1, by omega⟩
  rw [hf2, tryLambda_reject_bound env params current (env.linearize current.values)
    (env.dims current.values) (lmUseQR params) hel hsol hworse hb] at hshift
  exact iterateBody_ok_of env params current fuel (lmUseQR params)
    (current.values, current.error, l) hshift

/-- Witness for C3: a worse-error rejection on the first trial with λ at the
bound. -/
theorem lm_reject_at_bound_frame_witness :
    (iterate envAccept paramsLDL 1 stateLow).1
      = some (.ok { values := (), error := 2, lambda := 10, iterations := 8 }) :=
  lm_reject_at_bound_frame envAccept paramsLDL stateLow 1 0 10 ()
    (Or.inl rfl) (Or.inl rfl) LoopReaches.base (by decide) rfl (by decide)
    (by decide)

/-- C10: when the first trial is rejected — worse candidate error or an
indefiniteness signal — while the input λ is already at or above the upper
bound, the returned state's λ equals the input λ exactly: the give-up path
applies no growth or shrink. -/
theorem lm_first_trial_giveup_lambda (env : LMEnv V S F E) (params : LMParams)
    (current : LMState V) (fuel : ℕ)
    (hfa : params.factorization = 0 ∨ params.factorization = 1)
    (hel : params.elimination = 0 ∨ params.elimination = 1)
    (hfuel : 0 < fuel)
    (hb : params.lambdaUpperBound ≤ current.lambda)
    (hrej : solveDispatch env params.elimination
        (dampedSystem (env.linearize current.values) (env.dims current.values)
          current.lambda) (lmUseQR params) = .indefinite ∨
      ∃ delta, solveDispatch env params.elimination
          (dampedSystem (env.linearize current.values) (env.dims current.values)
            current.lambda) (lmUseQR params) = .success delta ∧
        current.error < env.errorFn (env.retract current.values delta)) :
    (iterate env params fuel current).1
      = some (.ok { values := current.values, error := current.error
                    lambda := current.lambda
                    iterations := current.iterations + 1 }) := by
  rw [iterate_valid_fact env params current fuel hfa]
  obtain ⟨f2, rfl⟩ : ∃ f2, fuel = f2 + 1 := ⟨fuel - 1, by omega⟩
  rcases hrej with hind | ⟨delta, hsol, hworse⟩
  · exact iterateBody_ok_of env params current (f2 + 1) (lmUseQR params)
      (current.values, current.error, current.lambda)
      (congrArg Prod.fst (tryLambda_indef_bound env params current
        (env.linearize current.values) (env.dims current.values) (lmUseQR params)
        hel hind hb))
  · exact iterateBody_ok_of env params current (f2 + 1) (lmUseQR params)
      (current.values, current.error, current.lambda)
      (congrArg Prod.fst (tryLambda_reject_bound env params current
        (env.linearize current.values) (env.dims current.values) (lmUseQR params)
        hel hsol hworse hb))

/-- Witness for C10: a first-trial worse-error rejection at the bound keeps
λ exactly. -/
theorem lm_first_trial_giveup_lambda_witness :
    (iterate envAccept paramsLDL 1 stateLow).1
      = some (.ok { values := stateLow.values, error := stateLow.error
                    lambda := stateLow.lambda
                    iterations := stateLow.iterations + 1 }) :=
  lm_first_trial_giveup_lambda envAccept paramsLDL stateLow 1
    (Or.inl rfl) (Or.inl rfl) (by decide) (by decide)
    (Or.inr ⟨(), rfl, by decide⟩)

/-- C4: (first conjunct) when the first damping trial solves successfully and
is accepted, the returned λ is the input λ divided by the growth factor;
(second conjunct) when the first trial is rejected — indefinite or worse
error, with λ below the upper bound — and the second trial is accepted, the
returned λ equals the input λ: one multiplication by the growth factor is
cancelled by one division. -/
theorem lm_lambda_schedule (env : LMEnv V S F E) (params : LMParams)
    (current : LMState V) (fuel : ℕ)
    (hfa : params.factorization = 0 ∨ params.factorization = 1)
    (hel : params.elimination = 0 ∨ params.elimination = 1)
    (hfac : params.lambdaFactor ≠ 0) :
    (∀ delta : S, 0 < fuel →
      solveDispatch env params.elimination
          (dampedSystem (env.linearize current.values) (env.dims current.values)
            current.lambda) (lmUseQR params) = .success delta →
      env.errorFn (env.retract current.values delta) ≤ current.error →
      (iterate env params fuel current).1
        = some (.ok { values := env.retract current.values delta
                      error := env.errorFn (env.retract current.values delta)
                      lambda := current.lambda / params.lambdaFactor
                      iterations := current.iterations + 1 })) ∧
    (∀ delta2 : S, 2 ≤ fuel →
      current.lambda < params.lambdaUpperBound →
      (solveDispatch env params.elimination
          (dampedSystem (env.linearize current.values) (env.dims current.values)
            current.lambda) (lmUseQR params) = .indefinite ∨
        ∃ delta1, solveDispatch env params.elimination
            (dampedSystem (env.linearize current.values) (env.dims current.values)
              current.lambda) (lmUseQR params) = .success delta1 ∧
          current.error < env.errorFn (env.retract current.values delta1)) →
      solveDispatch env params.elimination
          (dampedSystem (env.linearize current.values) (env.dims current.values)
            (current.lambda * params.lambdaFactor)) (lmUseQR params)
        = .success delta2 →
      env.errorFn (env.retract current.values delta2) ≤ current.error →
      (iterate env params fuel current).1
        = some (.ok { values := env.retract current.values delta2
                      error := env.errorFn (env.retract current.values delta2)
                      lambda := current.lambda
                      iterations := current.iterations + 1 })) := by
  constructor
  · intro delta hfuel hsol hacc
    rw [iterate_valid_fact env params current fuel hfa]
    obtain ⟨f2, rfl⟩ : ∃ f2, fuel = f2 + 1 := ⟨fuel - 1, by omega⟩
    exact iterateBody_ok_of env params current (f2 + 1) (lmUseQR params)
      (env.retract current.values delta,
        env.errorFn (env.retract current.values delta),
        current.lambda / params.lambdaFactor)
      (congrArg Prod.fst (tryLambda_accept env params current
        (env.linearize current.values) (env.dims current.values) (lmUseQR params)
        hel hsol hacc))
  · intro delta2 hfuel hlt hrej hsol2 hacc2
    rw [iterate_valid_fact env params current fuel hfa]
    obtain ⟨f2, rfl⟩ : ∃ f2, fuel = f2 + 2 := ⟨fuel - 2, by omega⟩
    have hstep2 : (tryLambda env params current (env.linearize current.values)
        (env.dims current.values) (lmUseQR params) (f2 + 1)
        (current.lambda * params.lambdaFactor)).1
        = some (.ok (env.retract current.values delta2,
            env.errorFn (env.retract current.values delta2),
            current.lambda * params.lambdaFactor / params.lambdaFactor)) := by
      rw [tryLambda_accept env params current (env.linearize current.values)
        (env.dims current.values) (lmUseQR params) hel hsol2 hacc2]
    have hstep1 :
        (tryLambda env params current (env.linearize current.values)
          (env.dims current.values) (lmUseQR params) (f2 + 2) current.lambda).1
          = (tryLambda env params current (env.linearize current.values)
              (env.dims current.values) (lmUseQR params) (f2 + 1)
              (current.lambda * params.lambdaFactor)).1 := by
      rcases hrej with hind | ⟨delta1, hsol1, hworse1⟩
      · rw [tryLambda_indef_grow env params current
          (env.linearize current.values) (env.dims current.values)
          (lmUseQR params) hel hind hlt]
      · rw [tryLambda_reject_grow env params current
          (env.linearize current.values) (env.dims current.values)
          (lmUseQR params) hel hsol1 hworse1 hlt]
    rw [hstep2] at hstep1
    have hcancel : current.lambda * params.lambdaFactor / params.lambdaFactor
        = current.lambda := mul_div_cancel_right₀ current.lambda hfac
    rw [hcancel] at hstep1
    exact iterateBody_ok_of env params current (f2 + 2) (lmUseQR params)
      (env.retract current.values delta2,
        env.errorFn (env.retract current.values delta2), current.lambda) hstep1

unseal Rat.mul Rat.inv Rat.add Rat.sub in
/-- Witness for C4: a first-trial acceptance shrinks λ by the growth factor;
one indefiniteness rejection followed by an acceptance returns the input λ. -/
theorem lm_lambda_schedule_witness :
    (iterate envAccept paramsLDL 1 stateA).1
      = some (.ok { values := (), error := 4
                    lambda := stateA.lambda / paramsLDL.lambdaFactor
                    iterations := 1 }) ∧
    (iterate envIndef1 paramsLDL 2 stateA).1
      = some (.ok { values := (), error := 4, lambda := stateA.lambda
                    iterations := 1 }) :=
  ⟨(lm_lambda_schedule envAccept paramsLDL stateA 1 (Or.inl rfl) (Or.inl rfl)
      (by decide)).1 () (by decide) rfl (by decide),
   (lm_lambda_schedule envIndef1 paramsLDL stateA 2 (Or.inl rfl) (Or.inl rfl)
      (by decide)).2 () (by decide) (by decide) (Or.inl (by decide))
      (by decide) (by decide)⟩

/-- With a valid elimination selector and a solver dispatch that never fails
fatally, every result the trial loop produces is an acceptance or give-up,
never an error. -/
theorem tryLambda_ok_of_nofatal (env : LMEnv V S F E) (params : LMParams)
    (current : LMState V) (linear : List (GaussianFactor F)) (dims : List ℕ)
    (useQR : Bool)
    (hel : params.elimination = 0 ∨ params.elimination = 1)
    (hnf : ∀ (sys : List (GaussianFactor F)) (e : E),
      solveDispatch env params.elimination sys useQR ≠ .fatal e) (fuel : ℕ) :
    ∀ (l : ℚ) (x : Except (LMError E) (V × ℚ × ℚ)),
      (tryLambda env params current linear dims useQR fuel l).1 = some x →
      ∃ t, x = .ok t := by
  induction fuel with
  | zero => intro l x h; simp [tryLambda] at h
  | succ fuel ih =>
    intro l x h
    cases hsol : solveDispatch env params.elimination (dampedSystem linear dims l)
      useQR with
    | success delta =>
      by_cases hacc :
          env.errorFn (env.retract current.values delta) ≤ current.error
      · rw [tryLambda_accept env params current linear dims useQR hel hsol hacc]
          at h
        simp at h
        exact ⟨_, h.symm⟩
      · have hworse := not_le.mp hacc
        by_cases hb : params.lambdaUpperBound ≤ l
        · rw [tryLambda_reject_bound env params current linear dims useQR hel
            hsol hworse hb] at h
          simp at h
          exact ⟨_, h.symm⟩
        · rw [tryLambda_reject_grow env params current linear dims useQR hel
            hsol hworse (not_le.mp hb)] at h
          exact ih (l * params.lambdaFactor) x h
    | indefinite =>
      by_cases hb : params.lambdaUpperBound ≤ l
      · rw [tryLambda_indef_bound env params current linear dims useQR hel hsol hb]
          at h
        simp at h
        exact ⟨_, h.symm⟩
      · rw [tryLambda_indef_grow env params current linear dims useQR hel hsol
          (not_le.mp hb)] at h
        exact ih (l * params.lambdaFactor) x h
    | fatal e => exact absurd hsol (hnf _ e)

/-- C5: an indefiniteness signal is handled as a rejected trial — retried with
λ grown by the factor when λ is below the bound, or a non-fatal give-up with
everything unchanged at the bound — whereas any other solver failure
propagates to the caller unchanged; with a valid configuration and no fatal
solver failure, `iterate` itself never produces an error. -/
theorem lm_solver_failure_policy (env : LMEnv V S F E) (params : LMParams)
    (current : LMState V) (fuel : ℕ)
    (hfa : params.factorization = 0 ∨ params.factorization = 1)
    (hel : params.elimination = 0 ∨ params.elimination = 1) :
    (∀ (l : ℚ) (f2 : ℕ),
      solveDispatch env params.elimination
          (dampedSystem (env.linearize current.values) (env.dims current.values) l)
          (lmUseQR params) = .indefinite →
      l < params.lambdaUpperBound →
      (tryLambda env params current (env.linearize current.values)
          (env.dims current.values) (lmUseQR params) (f2 + 1) l).1
        = (tryLambda env params current (env.linearize current.values)
            (env.dims current.values) (lmUseQR params) f2
            (l * params.lambdaFactor)).1) ∧
    (∀ (l : ℚ) (f2 : ℕ),
      solveDispatch env params.elimination
          (dampedSystem (env.linearize current.values) (env.dims current.values) l)
          (lmUseQR params) = .indefinite →
      params.lambdaUpperBound ≤ l →
      (tryLambda env params current (env.linearize current.values)
          (env.dims current.values) (lmUseQR params) (f2 + 1) l).1
        = some (.ok (current.values, current.error, l))) ∧
    (∀ (k : ℕ) (l : ℚ) (e : E),
      LoopReaches env params current (env.linearize current.values)
        (env.dims current.values) (lmUseQR params) k l →
      solveDispatch env params.elimination
          (dampedSystem (env.linearize current.values) (env.dims current.values) l)
          (lmUseQR params) = .fatal e →
      k < fuel →
      (iterate env params fuel current).1 = some (.error (.solverFatal e))) ∧
    ((∀ (sys : List (GaussianFactor F)) (e : E),
        solveDispatch env params.elimination sys (lmUseQR params) ≠ .fatal e) →
      ∀ x, (iterate env params fuel current).1 = some x →
        ∃ st, x = Except.ok st) := by
  refine ⟨?_, ?_, ?_, ?_⟩
  · intro l f2 hind hlt
    rw [tryLambda_indef_grow env params current (env.linearize current.values)
      (env.dims current.values) (lmUseQR params) hel hind hlt]
  · intro l f2 hind hb
    rw [tryLambda_indef_bound env params current (env.linearize current.values)
      (env.dims current.values) (lmUseQR params) hel hind hb]
  · intro k l e hreach hfatal hfuel
    rw [iterate_valid_fact env params current fuel hfa]
    have hshift := tryLambda_of_reaches env params current
      (env.linearize current.values) (env.dims current.values) (lmUseQR params)
      hel hreach (fuel - k)
    have hfk : k + (fuel - k) = fuel := by omega
    rw [hfk] at hshift
    obtain ⟨f2, hf2⟩ : ∃ f2, fuel - k = f2 + 1 := ⟨fuel - k - 1, by omega⟩
    rw [hf2, tryLambda_fatal env params current (env.linearize current.values)
      (env.dims current.values) (lmUseQR params) hel hfatal] at hshift
    exact iterateBody_error_of env params current fuel (lmUseQR params)
      (.solverFatal e) hshift
  · intro hnf x h
    rw [iterate_valid_fact env params current fuel hfa] at h
    cases x with
    | ok st => exact ⟨st, rfl⟩
    | error err =>
      have herr := iterateBody_error_elim env params current fuel
        (lmUseQR params) err h
      obtain ⟨t, ht⟩ := tryLambda_ok_of_nofatal env params current
        (env.linearize current.values) (env.dims current.values) (lmUseQR params)
        hel hnf fuel current.lambda (.error err) herr
      exact absurd ht (by simp)

unseal Rat.mul Rat.inv Rat.add Rat.sub in
/-- Witness for C5: an indefiniteness retry below the bound, an indefiniteness
give-up at the bound, a propagated fatal failure, and an error-free run. -/
theorem lm_solver_failure_policy_witness :
    ((tryLambda envIndef1 paramsLDL stateA (envIndef1.linearize stateA.values)
        (envIndef1.dims stateA.values) (lmUseQR paramsLDL) 2 1).1
      = (tryLambda envIndef1 paramsLDL stateA (envIndef1.linearize stateA.values)
          (envIndef1.dims stateA.values) (lmUseQR paramsLDL) 1
          (1 * paramsLDL.lambdaFactor)).1) ∧
    ((tryLambda envIndef1 paramsSeq stateA (envIndef1.linearize stateA.values)
        (envIndef1.dims stateA.values) (lmUseQR paramsSeq) 1 20).1
      = some (.ok (stateA.values, stateA.error, 20))) ∧
    ((iterate envFatal paramsLDL 1 stateA).1
      = some (.error (.solverFatal ()))) ∧
    (∃ st, (Except.ok { values := (), error := 4, lambda := 1/2, iterations := 1 }
        : Except (LMError Unit) (LMState Unit)) = Except.ok st) :=
  ⟨(lm_solver_failure_policy envIndef1 paramsLDL stateA 2 (Or.inl rfl)
      (Or.inl rfl)).1 1 1 (by decide) (by decide),
   (lm_solver_failure_policy envIndef1 paramsSeq stateA 1 (Or.inl rfl)
      (Or.inr rfl)).2.1 20 0 rfl (by decide),
   (lm_solver_failure_policy envFatal paramsLDL stateA 1 (Or.inl rfl)
      (Or.inl rfl)).2.2.1 0 stateA.lambda () LoopReaches.base rfl (by decide),
   (lm_solver_failure_policy envAccept paramsLDL stateA 1 (Or.inl rfl)
      (Or.inl rfl)).2.2.2
      (fun sys e h => by simp [solveDispatch, envAccept, paramsLDL] at h)
      (Except.ok { values := (), error := 4, lambda := 1/2, iterations := 1 })
      (by rfl)⟩

/-- C8: the nonlinear graph is linearized exactly once per call — the log's
only linearization event is the one at the input estimate — and every system
handed to a solver is the damped copy of that single linear system at some λ;
the damped system keeps the linear system unchanged as its prefix and appends
exactly one unary prior per variable, variable `j` getting the factor
`(j, eye dim, zero dim)` with isotropic noise of variance `1/λ`, i.e.
standard deviation `1/sqrt λ`. -/
theorem lm_damping_structure (env : LMEnv V S F E) (params : LMParams)
    (current : LMState V) (fuel : ℕ) (lambda : ℚ) :
    ((iterate env params fuel current).2.filter isLinearizedEvent
      = [LMEvent.linearized current.values]) ∧
    (∀ sys, LMEvent.solved sys ∈ (iterate env params fuel current).2 →
      ∃ l, sys = dampedSystem (env.linearize current.values)
        (env.dims current.values) l) ∧
    (∀ (linear : List (GaussianFactor F)) (dims : List ℕ),
      (dampedSystem linear dims lambda).take linear.length = linear ∧
      (dampedSystem linear dims lambda).drop linear.length
        = dampedPriors dims lambda) ∧
    (∀ dims : List ℕ,
      (dampedPriors dims lambda : List (GaussianFactor F)).length = dims.length) ∧
    (∀ (dims : List ℕ) (j : ℕ), j < dims.length →
      (dampedPriors dims lambda : List (GaussianFactor F)).getD j default
        = GaussianFactor.prior j (eye (dims.getD j 0)) (zeroVec (dims.getD j 0))
            (dims.getD j 0) (priorSigmaSq lambda)) ∧
    (0 < lambda →
      Real.sqrt ((priorSigmaSq lambda : ℚ) : ℝ)
        = 1 / Real.sqrt ((lambda : ℚ) : ℝ)) := by
  refine ⟨?_, ?_, ?_, ?_, ?_, ?_⟩
  · by_cases hfa : params.factorization = 0 ∨ params.factorization = 1
    · rw [iterate_valid_fact env params current fuel hfa, iterateBody_events,
        List.filter_cons_of_pos (by simp [isLinearizedEvent])]
      have hnil : (tryLambda env params current (env.linearize current.values)
          (env.dims current.values) (lmUseQR params) fuel
          current.lambda).2.filter isLinearizedEvent = [] := by
        rw [List.filter_eq_nil_iff]
        intro x hx
        cases x with
        | linearized v =>
          exact absurd hx (tryLambda_no_linearized env params current
            (env.linearize current.values) (env.dims current.values)
            (lmUseQR params) fuel current.lambda v)
        | solved s => simp [isLinearizedEvent]
      rw [hnil]
    · rw [iterate_invalid_fact env params current fuel
        (fun h0 => hfa (Or.inl h0)) (fun h1 => hfa (Or.inr h1))]
      simp [isLinearizedEvent]
  · intro sys hmem
    by_cases hfa : params.factorization = 0 ∨ params.factorization = 1
    · rw [iterate_valid_fact env params current fuel hfa, iterateBody_events]
        at hmem
      rcases List.mem_cons.mp hmem with heq | hmem2
      · exact absurd heq (by simp)
      · exact tryLambda_solved_damped env params current
          (env.linearize current.values) (env.dims current.values)
          (lmUseQR params) fuel current.lambda sys hmem2
    · rw [iterate_invalid_fact env params current fuel
        (fun h0 => hfa (Or.inl h0)) (fun h1 => hfa (Or.inr h1))] at hmem
      simp at hmem
  · intro linear dims
    exact ⟨List.take_left linear (dampedPriors dims lambda),
      List.drop_left linear (dampedPriors dims lambda)⟩
  · intro dims
    simp [dampedPriors]
  · intro dims j hj
    simp [dampedPriors, List.getD_eq_getElem?_getD, List.getElem?_map,
      List.getElem?_range, hj]
  · intro hl
    show Real.sqrt ((1 / lambda : ℚ) : ℝ) = _
    push_cast
    rw [one_div, one_div, Real.sqrt_inv]

unseal Rat.mul Rat.inv Rat.add Rat.sub in
/-- Witness for C8 at λ = 4 and a single one-dimensional variable. -/
theorem lm_damping_structure_witness :
    ((dampedPriors [1] 4 : List (GaussianFactor Unit)).getD 0 default
      = GaussianFactor.prior 0 (eye 1) (zeroVec 1) 1 (priorSigmaSq 4)) ∧
    Real.sqrt ((priorSigmaSq 4 : ℚ) : ℝ) = 1 / Real.sqrt ((4 : ℚ) : ℝ) :=
  ⟨(lm_damping_structure envAccept paramsLDL stateA 1 4).2.2.2.2.1 [1] 0
      (by decide),
   (lm_damping_structure envAccept paramsLDL stateA 1 4).2.2.2.2.2
      (by norm_num)⟩

/-- C9: `iterate` never mutates the chain of existing states — the new state
is freshly appended, every previously stored state (the input state included)
is unchanged at its index, and the new state is derived from the input state
with the iteration count incremented. -/
theorem lm_state_chain_immutable (env : LMEnv V S F E) (params : LMParams)
    (fuel : ℕ) (chain chain2 : List (LMState V)) (i : ℕ)
    (h : iterateChain env params fuel chain i = some (.ok chain2)) :
    (∀ j, j < chain.length → chain2[j]? = chain[j]?) ∧
    ∃ current st, chain[i]? = some current ∧
      (iterate env params fuel current).1 = some (.ok st) ∧
      st.iterations = current.iterations + 1 ∧
      chain2 = chain ++ [st] := by
  unfold iterateChain at h
  split at h
  · simp at h
  · rename_i current hcur
    split at h
    · simp at h
    · simp at h
    · rename_i st hres
      simp only [Option.some.injEq, Except.ok.injEq] at h
      subst h
      refine ⟨?_, current, st, hcur, hres,
        iterate_ok_iterations env params current st fuel hres, rfl⟩
      intro j hj
      exact List.getElem?_append_left hj

unseal Rat.mul Rat.inv Rat.add Rat.sub in
/-- Witness for C9: appending one accepted iteration to a one-state chain
leaves the stored input state unchanged at its index. -/
theorem lm_state_chain_immutable_witness :
    ([stateA, { values := (), error := 4, lambda := 1/2, iterations := 1 }]
        : List (LMState Unit))[0]?
      = ([stateA] : List (LMState Unit))[0]? :=
  (lm_state_chain_immutable envAccept paramsLDL 1 [stateA]
      [stateA, { values := (), error := 4, lambda := 1/2, iterations := 1 }] 0
      (by rfl)).1 0 (by decide)
